import Mathlib

set_option linter.unusedSectionVars false
set_option linter.unusedVariables false

/-!
# Verification of the shopping-cart recommendation engine

Shallow embedding of the sequence-based recommendation engine of the
shopping-cart repository.  Carts are ordered lists of product identifiers
(`str(object_id)` in the source); the identifier type is modelled as an
arbitrary linearly ordered type `α` (string identifiers in the source are
one such instance; the code only uses equality, hashing and the sort order
of identifiers).

Two implementations live in the repository:

* `Shop` — `shopping_cart/shop/recommendations.py` (the Django app):
  `analyze_product_sequences`, `get_product_recommendations`,
  `get_cart_similarity_score`, `find_frequently_bought_together`.
* `PyCart` — `3_Python_Shopping_Cart/shopping_cart.py`:
  `analyze_product_sequences` over `ShoppingCart.get_product_sequence()`.

Python's `collections.Counter` is modelled exactly: keys are kept in
first-insertion order (`firstSeen`), counts are total occurrence counts,
and `most_common` is the stable descending sort by count (`mostCommonAll`)
truncated to the requested length.  Python's `sorted` is modelled by
`List.insertionSort`, which is stable.  `float` division in the similarity
score is modelled as exact division in `ℚ`.
-/

section CounterModel

variable {α : Type} [DecidableEq α]

/-- The adjacent pairs `(items[i], items[i+1])` of a cart sequence, exactly the
pairs scanned by `for i in range(len(items) - 1)` in the source. -/
def adjacentPairs (l : List α) : List (α × α) := l.zip l.tail

/-- All adjacent pairs across a collection of carts, in scan order
(cart by cart, position by position). -/
def seqPairs (carts : List (List α)) : List (α × α) :=
  (carts.map adjacentPairs).flatten

/-- Helper for `firstSeen`: keeps the elements of the list not in `seen`,
in order of first occurrence. -/
def firstSeenAux : List α → List α → List α
  | _, [] => []
  | seen, a :: l => if a ∈ seen then firstSeenAux seen l else a :: firstSeenAux (a :: seen) l

/-- The distinct elements of a list in order of first occurrence: the key
order of a Python `dict` / `Counter` filled by iterating over the list. -/
def firstSeen (l : List α) : List α := firstSeenAux [] l

/-- `countGe x y` holds when `x`'s count is at least `y`'s: the descending
comparison used by `Counter.most_common` and by
`sorted(..., key=lambda x: x[1], reverse=True)`. -/
def countGe {β : Type} (x y : β × Nat) : Prop := y.2 ≤ x.2

instance {β : Type} : DecidableRel (@countGe β) :=
  fun x y => inferInstanceAs (Decidable (y.2 ≤ x.2))

instance {β : Type} : IsTotal (β × Nat) countGe :=
  ⟨fun x y => (Nat.le_total x.2 y.2).symm⟩

instance {β : Type} : IsTrans (β × Nat) countGe :=
  ⟨fun _ _ _ h1 h2 => Nat.le_trans h2 h1⟩

/-- `Counter(l).most_common()`: every distinct element of `l` with its total
count, sorted descending by count; ties keep first-insertion order because
Python's sort (and `heapq.nlargest`) is stable. -/
def mostCommonAll (l : List α) : List (α × Nat) :=
  List.insertionSort countGe ((firstSeen l).map (fun a => (a, l.count a)))

end CounterModel

variable {α : Type} [LinearOrder α]

namespace Shop

/-- The list of products observed immediately after `p` across all carts, in
scan order: the `product_followers[p]` list of
`shopping_cart/shop/recommendations.py`. -/
def followersOf (carts : List (List α)) (p : α) : List α :=
  (seqPairs carts).filterMap (fun pr => if pr.1 = p then some pr.2 else none)

/-- `analyze_product_sequences` of `shopping_cart/shop/recommendations.py`:
for each product that was ever observed immediately before another product
(keys in first-seen order), the most common product added after it together
with that follower's count. -/
def analyze_product_sequences (carts : List (List α)) : List (α × α × Nat) :=
  (firstSeen ((seqPairs carts).map Prod.fst)).filterMap (fun p =>
    match mostCommonAll (followersOf carts p) with
    | [] => none
    | e :: _ => some (p, e.1, e.2))

/-- `get_product_recommendations` of `shopping_cart/shop/recommendations.py`:
the products that immediately followed `product_id`, with frequencies,
most frequent first, truncated to `limit`. -/
def get_product_recommendations (product_id : α) (carts : List (List α))
    (limit : Nat) : List (α × Nat) :=
  let product_followers := followersOf carts product_id
  if product_followers = [] then []
  else (mostCommonAll product_followers).take limit

/-- `get_cart_similarity_score` of `shopping_cart/shop/recommendations.py`:
Jaccard similarity of the two carts' distinct-product sets, with `float`
division modelled as exact division in `ℚ`. -/
def get_cart_similarity_score (cart1 cart2 : List α) : ℚ :=
  let items1 := cart1.toFinset
  let items2 := cart2.toFinset
  if items1 = ∅ ∧ items2 = ∅ then 0
  else if 0 < (items1 ∪ items2).card then
    ((items1 ∩ items2).card : ℚ) / ((items1 ∪ items2).card : ℚ)
  else 0

/-- The cart's product identifiers sorted ascending — `sorted([...])` over the
raw item list (duplicates included) in `find_frequently_bought_together`. -/
def cartSortedIds (cart : List α) : List α :=
  List.insertionSort (· ≤ ·) cart

/-- All ordered index pairs `(ids[i], ids[j])`, `i < j`, of a list — the
double loop of `find_frequently_bought_together`. -/
def pairsOf : List α → List (α × α)
  | [] => []
  | a :: l => (l.map (fun b => (a, b))) ++ pairsOf l

/-- The pair stream fed into `product_combinations`, across all carts. -/
def allCartPairs (carts : List (List α)) : List (α × α) :=
  (carts.map (fun c => pairsOf (cartSortedIds c))).flatten

/-- The `product_combinations` dict as an association list: keys in
first-insertion order, each with its accumulated count. -/
def countedPairs (pairs : List (α × α)) : List ((α × α) × Nat) :=
  (firstSeen pairs).map (fun pr => (pr, pairs.count pr))

/-- `find_frequently_bought_together` of
`shopping_cart/shop/recommendations.py`: pair counts accumulated over the
sorted item lists of all carts, filtered to `count >= min_frequency`, sorted
descending by count (Python's stable sort). -/
def find_frequently_bought_together (carts : List (List α))
    (min_frequency : Nat) : List ((α × α) × Nat) :=
  List.insertionSort countGe
    ((countedPairs (allCartPairs carts)).filter (fun x => min_frequency ≤ x.2))

end Shop

namespace PyCart

/-- `ProductSequenceStats` of `3_Python_Shopping_Cart/shopping_cart.py`. -/
structure ProductSequenceStats (β : Type) where
  product_id : β
  most_common_predecessor : Option β
  occurrences : Nat
deriving DecidableEq, Repr

/-- The predecessors observed for product `c` across all carts, in scan
order: the `predecessor_counts[c]` counter's underlying observations. -/
def predecessorsOf (carts : List (List α)) (c : α) : List α :=
  (seqPairs carts).filterMap (fun pr => if pr.2 = c then some pr.1 else none)

/-- `analyze_product_sequences` of `3_Python_Shopping_Cart/shopping_cart.py`:
for each product observed with at least one predecessor (keys in first-seen
order), its most common predecessor and that predecessor's count. -/
def analyze_product_sequences (carts : List (List α)) :
    List (α × ProductSequenceStats α) :=
  (firstSeen ((seqPairs carts).map Prod.snd)).map (fun c =>
    match mostCommonAll (predecessorsOf carts c) with
    | e :: _ => (c, ⟨c, some e.1, e.2⟩)
    | [] => (c, ⟨c, none, 0⟩))

end PyCart

/-- Modelled from the spec (§4.3): the canonical (lexicographic) ordering on
product pairs used there as the claimed secondary sort key. -/
def pairLex (p q : α × α) : Prop := p.1 < q.1 ∨ (p.1 = q.1 ∧ p.2 ≤ q.2)

instance : DecidableRel (@pairLex α _) :=
  fun p q => inferInstanceAs (Decidable (p.1 < q.1 ∨ (p.1 = q.1 ∧ p.2 ≤ q.2)))

/-- Modelled from the spec (§4.3): the claimed output ordering of
`find_frequently_bought_together` — descending by count, ties among equal
counts broken by the canonical pair ordering. -/
def specPairOrder (x y : (α × α) × Nat) : Prop :=
  y.2 < x.2 ∨ (x.2 = y.2 ∧ pairLex x.1 y.1)

instance : DecidableRel (@specPairOrder α _) :=
  fun x y => inferInstanceAs (Decidable (y.2 < x.2 ∨ (x.2 = y.2 ∧ pairLex x.1 y.1)))

/-! ## Properties of the `Counter` model -/

section CounterLemmas

variable {β : Type} [DecidableEq β]

theorem mem_firstSeenAux {x : β} :
    ∀ {l seen : List β}, x ∈ firstSeenAux seen l ↔ x ∈ l ∧ x ∉ seen := by
  intro l
  induction l with
  | nil => intro seen; simp [firstSeenAux]
  | cons a l ih =>
    intro seen
    rw [firstSeenAux]
    by_cases h : a ∈ seen
    · rw [if_pos h, ih]
      simp only [List.mem_cons]
      constructor
      · rintro ⟨h1, h2⟩; exact ⟨Or.inr h1, h2⟩
      · rintro ⟨h1 | h1, h2⟩
        · exact absurd (h1 ▸ h) h2
        · exact ⟨h1, h2⟩
    · rw [if_neg h]
      simp only [List.mem_cons, ih]
      constructor
      · rintro (rfl | ⟨h1, h2⟩)
        · exact ⟨Or.inl rfl, h⟩
        · exact ⟨Or.inr h1, fun hs => h2 (Or.inr hs)⟩
      · rintro ⟨h1 | h1, h2⟩
        · exact Or.inl h1
        · rcases eq_or_ne x a with rfl | hxa
          · exact Or.inl rfl
          · exact Or.inr ⟨h1, fun hs => (by rcases hs with rfl | hs; exacts [hxa rfl, h2 hs])⟩

theorem mem_firstSeen {x : β} {l : List β} : x ∈ firstSeen l ↔ x ∈ l := by
  rw [firstSeen, mem_firstSeenAux]; simp

theorem nodup_firstSeenAux : ∀ {l seen : List β}, (firstSeenAux seen l).Nodup := by
  intro l
  induction l with
  | nil => intro seen; simp [firstSeenAux]
  | cons a l ih =>
    intro seen
    rw [firstSeenAux]
    by_cases h : a ∈ seen
    · rw [if_pos h]; exact ih
    · rw [if_neg h]
      exact List.Nodup.cons
        (fun hmem => (mem_firstSeenAux.1 hmem).2 (List.mem_cons_self a seen)) ih

theorem nodup_firstSeen (l : List β) : (firstSeen l).Nodup := nodup_firstSeenAux

theorem firstSeen_ne_nil {l : List β} (h : l ≠ []) : firstSeen l ≠ [] := by
  cases l with
  | nil => exact absurd rfl h
  | cons a t =>
    rw [firstSeen, firstSeenAux, if_neg (List.not_mem_nil a)]
    exact List.cons_ne_nil _ _

theorem mostCommonAll_perm (l : List β) :
    List.Perm (mostCommonAll l) ((firstSeen l).map (fun a => (a, l.count a))) :=
  List.perm_insertionSort _ _

theorem sorted_mostCommonAll (l : List β) : (mostCommonAll l).Sorted countGe :=
  List.sorted_insertionSort _ _

theorem mem_mostCommonAll {l : List β} {e : β × Nat} :
    e ∈ mostCommonAll l ↔ e.1 ∈ l ∧ e.2 = l.count e.1 := by
  rw [(mostCommonAll_perm l).mem_iff, List.mem_map]
  constructor
  · rintro ⟨a, ha, rfl⟩
    exact ⟨mem_firstSeen.1 ha, rfl⟩
  · rintro ⟨h1, h2⟩
    exact ⟨e.1, mem_firstSeen.2 h1, by rw [← h2]⟩

theorem nodup_map_fst_mostCommonAll (l : List β) :
    ((mostCommonAll l).map Prod.fst).Nodup := by
  refine ((mostCommonAll_perm l).map Prod.fst).nodup_iff.2 ?_
  rw [List.map_map]
  have h : (Prod.fst ∘ fun a => (a, List.count a l)) = id := rfl
  rw [h, List.map_id]
  exact nodup_firstSeen l

theorem mostCommonAll_ne_nil {l : List β} (h : l ≠ []) : mostCommonAll l ≠ [] := by
  intro hc
  have h1 := (mostCommonAll_perm l).length_eq
  rw [hc, List.length_map] at h1
  exact firstSeen_ne_nil h (List.length_eq_zero.1 h1.symm)

theorem mostCommonAll_nil : mostCommonAll ([] : List β) = [] := rfl

end CounterLemmas

/-! ## Properties of the adjacent-pair scan -/

section PairLemmas

variable {β : Type} [DecidableEq β]

theorem adjacentPairs_nil : adjacentPairs ([] : List β) = [] := rfl

theorem adjacentPairs_single (a : β) : adjacentPairs [a] = [] := rfl

theorem adjacentPairs_eq_nil {l : List β} (h : l.length ≤ 1) : adjacentPairs l = [] := by
  match l with
  | [] => rfl
  | [a] => rfl
  | a :: b :: t => simp at h

theorem adjacentPairs_cons_cons (x y : β) (t : List β) :
    adjacentPairs (x :: y :: t) = (x, y) :: adjacentPairs (y :: t) := rfl

theorem mem_adjacentPairs {l : List β} {a b : β} :
    (a, b) ∈ adjacentPairs l ↔ ∃ i, l[i]? = some a ∧ l[i + 1]? = some b := by
  induction l with
  | nil => simp [adjacentPairs]
  | cons x t ih =>
    cases t with
    | nil =>
      rw [adjacentPairs_single]
      simp only [List.not_mem_nil, false_iff]
      rintro ⟨i, h1, h2⟩
      cases i <;> simp at h2
    | cons y t' =>
      rw [adjacentPairs_cons_cons, List.mem_cons, ih]
      constructor
      · rintro (h | ⟨i, h1, h2⟩)
        · injection h with h1 h2
          subst h1; subst h2
          exact ⟨0, by simp, by simp⟩
        · exact ⟨i + 1, by simpa using h1, by simpa using h2⟩
      · rintro ⟨i, h1, h2⟩
        cases i with
        | zero =>
          rw [List.getElem?_cons_zero] at h1
          rw [List.getElem?_cons_succ, List.getElem?_cons_zero] at h2
          obtain rfl := Option.some.inj h1
          obtain rfl := Option.some.inj h2
          exact Or.inl rfl
        | succ n =>
          rw [List.getElem?_cons_succ] at h1
          rw [List.getElem?_cons_succ] at h2
          exact Or.inr ⟨n, h1, h2⟩

theorem mem_seqPairs {carts : List (List β)} {pr : β × β} :
    pr ∈ seqPairs carts ↔ ∃ c ∈ carts, pr ∈ adjacentPairs c := by
  simp [seqPairs, List.mem_flatten]

theorem seqPairs_eq_nil {carts : List (List β)} (h : ∀ c ∈ carts, c.length ≤ 1) :
    seqPairs carts = [] := by
  rw [seqPairs, List.flatten_eq_nil_iff]
  intro l hl
  rw [List.mem_map] at hl
  obtain ⟨c, hc, rfl⟩ := hl
  exact adjacentPairs_eq_nil (h c hc)

/-- A product is a non-first element of some cart iff it is the second
component of some adjacent pair. -/
theorem mem_map_snd_seqPairs {carts : List (List β)} {p : β} :
    p ∈ (seqPairs carts).map Prod.snd ↔
      ∃ ct : List β, ct ∈ carts ∧ ∃ i : Nat, ct[i + 1]? = some p := by
  constructor
  · intro h
    rw [List.mem_map] at h
    obtain ⟨⟨a, b⟩, hmem, rfl⟩ := h
    obtain ⟨ct, hct, hpr⟩ := mem_seqPairs.1 hmem
    obtain ⟨i, _, h2⟩ := mem_adjacentPairs.1 hpr
    exact ⟨ct, hct, i, h2⟩
  · rintro ⟨ct, hct, i, h2⟩
    have hi : i < ct.length := by
      have := (List.getElem?_eq_some_iff.1 h2).1
      omega
    have h1 : ct[i]? = some ct[i] := List.getElem?_eq_getElem hi
    refine List.mem_map.2 ⟨(ct[i], p), mem_seqPairs.2 ⟨ct, hct, ?_⟩, rfl⟩
    exact mem_adjacentPairs.2 ⟨i, h1, h2⟩

end PairLemmas

/-! ## Follower and predecessor lists -/

section FollowerLemmas

variable {β : Type} [LinearOrder β]

theorem followersOf_eq_nil_iff {carts : List (List β)} {p : β} :
    Shop.followersOf carts p = [] ↔ p ∉ (seqPairs carts).map Prod.fst := by
  rw [Shop.followersOf, List.filterMap_eq_nil_iff]
  constructor
  · intro h hp
    rw [List.mem_map] at hp
    obtain ⟨pr, hpr, hfst⟩ := hp
    have h2 := h pr hpr
    rw [if_pos hfst] at h2
    cases h2
  · intro h pr hpr
    rw [if_neg]
    intro hfst
    exact h (List.mem_map.2 ⟨pr, hpr, hfst⟩)

theorem predecessorsOf_eq_nil_iff {carts : List (List β)} {p : β} :
    PyCart.predecessorsOf carts p = [] ↔ p ∉ (seqPairs carts).map Prod.snd := by
  rw [PyCart.predecessorsOf, List.filterMap_eq_nil_iff]
  constructor
  · intro h hp
    rw [List.mem_map] at hp
    obtain ⟨pr, hpr, hsnd⟩ := hp
    have h2 := h pr hpr
    rw [if_pos hsnd] at h2
    cases h2
  · intro h pr hpr
    rw [if_neg]
    intro hsnd
    exact h (List.mem_map.2 ⟨pr, hpr, hsnd⟩)

/-- `analyze_product_sequences` (Django) rephrased with `head?` instead of the
`match` on the most-common list, for easier reasoning. -/
theorem shop_analyze_eq (carts : List (List β)) :
    Shop.analyze_product_sequences carts =
      (firstSeen ((seqPairs carts).map Prod.fst)).filterMap (fun p =>
        (mostCommonAll (Shop.followersOf carts p)).head?.map (fun e => (p, e.1, e.2))) := by
  rw [Shop.analyze_product_sequences]
  congr 1
  funext p
  cases mostCommonAll (Shop.followersOf carts p) <;> rfl

/-- Membership in the Django sequence analysis: `p` is a key with value `e`
iff `p` was seen as a predecessor and `e` heads its most-common list. -/
theorem mem_shop_analyze {carts : List (List β)} {p : β} {e : β × Nat} :
    (p, e) ∈ Shop.analyze_product_sequences carts ↔
      p ∈ firstSeen ((seqPairs carts).map Prod.fst) ∧
        (mostCommonAll (Shop.followersOf carts p)).head? = some e := by
  rw [shop_analyze_eq, List.mem_filterMap]
  constructor
  · rintro ⟨a, ha, hf⟩
    rw [Option.map_eq_some'] at hf
    obtain ⟨e', he', heq⟩ := hf
    injection heq with h1 h2
    subst h1
    have he2 : e' = e := by
      calc e' = (e'.1, e'.2) := rfl
      _ = e := h2
    subst he2
    exact ⟨ha, he'⟩
  · rintro ⟨h1, h2⟩
    exact ⟨p, h1, by rw [h2]; rfl⟩

end FollowerLemmas

/-! ## The predecessor analysis (`PyCart`) -/

section PyCartLemmas

variable {β : Type} [LinearOrder β]

/-- `analyze_product_sequences` (3_Python) rephrased with `head?`. -/
theorem pycart_analyze_eq (carts : List (List β)) :
    PyCart.analyze_product_sequences carts =
      (firstSeen ((seqPairs carts).map Prod.snd)).map (fun c =>
        match (mostCommonAll (PyCart.predecessorsOf carts c)).head? with
        | some e => (c, ⟨c, some e.1, e.2⟩)
        | none => (c, ⟨c, none, 0⟩)) := by
  rw [PyCart.analyze_product_sequences]
  congr 1
  funext c
  cases mostCommonAll (PyCart.predecessorsOf carts c) <;> rfl

/-- `p` is a key of the predecessor analysis iff it was seen as the second
component of some adjacent pair. -/
theorem pycart_key_iff {carts : List (List β)} {p : β} :
    (∃ s, (p, s) ∈ PyCart.analyze_product_sequences carts) ↔
      p ∈ firstSeen ((seqPairs carts).map Prod.snd) := by
  rw [pycart_analyze_eq]
  constructor
  · rintro ⟨s, hs⟩
    rw [List.mem_map] at hs
    obtain ⟨c, hc, heq⟩ := hs
    suffices hcp : c = p by exact hcp ▸ hc
    cases hm : (mostCommonAll (PyCart.predecessorsOf carts c)).head? with
    | none => rw [hm] at heq; exact congrArg Prod.fst heq
    | some e => rw [hm] at heq; exact congrArg Prod.fst heq
  · intro hp
    cases hm : (mostCommonAll (PyCart.predecessorsOf carts p)).head? with
    | none =>
      refine ⟨⟨p, none, 0⟩, List.mem_map.2 ⟨p, hp, ?_⟩⟩
      rw [hm]
    | some e =>
      refine ⟨⟨p, some e.1, e.2⟩, List.mem_map.2 ⟨p, hp, ?_⟩⟩
      rw [hm]

theorem pycart_analyze_eq_nil {carts : List (List β)}
    (h : ∀ c ∈ carts, c.length ≤ 1) :
    PyCart.analyze_product_sequences carts = [] := by
  rw [PyCart.analyze_product_sequences, seqPairs_eq_nil h]
  rfl

theorem shop_analyze_eq_nil {carts : List (List β)}
    (h : ∀ c ∈ carts, c.length ≤ 1) :
    Shop.analyze_product_sequences carts = [] := by
  rw [Shop.analyze_product_sequences, seqPairs_eq_nil h]
  rfl

theorem followersOf_eq_nil_of_singletons {carts : List (List β)}
    (h : ∀ c ∈ carts, c.length ≤ 1) (p : β) :
    Shop.followersOf carts p = [] := by
  rw [Shop.followersOf, seqPairs_eq_nil h]
  rfl

theorem get_product_recommendations_eq_nil_of_singletons {carts : List (List β)}
    (h : ∀ c ∈ carts, c.length ≤ 1) (p : β) (lim : Nat) :
    Shop.get_product_recommendations p carts lim = [] := by
  rw [Shop.get_product_recommendations]
  simp [followersOf_eq_nil_of_singletons h p]

end PyCartLemmas

/-! ## Stability of the descending count sort -/

section StabilityLemmas

variable {γ : Type}

theorem filter_orderedInsert_count (cnt : Nat) (a : γ × Nat) (l : List (γ × Nat)) :
    (List.orderedInsert countGe a l).filter (fun x => x.2 = cnt) =
      if a.2 = cnt then a :: l.filter (fun x => x.2 = cnt)
      else l.filter (fun x => x.2 = cnt) := by
  induction l with
  | nil =>
    rw [List.orderedInsert]
    by_cases ha : a.2 = cnt <;> simp [List.filter_cons, ha]
  | cons b l ih =>
    rw [List.orderedInsert]
    by_cases hab : countGe a b
    · rw [if_pos hab]
      by_cases ha : a.2 = cnt <;> simp [List.filter_cons, ha]
    · rw [if_neg hab]
      have hlt : a.2 < b.2 := Nat.lt_of_not_le (fun hle => hab hle)
      by_cases hb : b.2 = cnt
      · have ha : ¬a.2 = cnt := by omega
        simp [List.filter_cons, hb, ha, ih]
      · by_cases ha : a.2 = cnt <;> simp [List.filter_cons, hb, ha, ih]

theorem filter_insertionSort_count (cnt : Nat) (l : List (γ × Nat)) :
    (List.insertionSort countGe l).filter (fun x => x.2 = cnt) =
      l.filter (fun x => x.2 = cnt) := by
  induction l with
  | nil => rfl
  | cons a l ih =>
    rw [List.insertionSort, filter_orderedInsert_count, ih, List.filter_cons]
    by_cases ha : a.2 = cnt <;> simp [ha]

end StabilityLemmas

/-! ## Counting co-occurrence pairs -/

section CoOccurrenceLemmas

variable {β : Type} [LinearOrder β]

theorem mem_cartSortedIds {c : List β} {a : β} :
    a ∈ Shop.cartSortedIds c ↔ a ∈ c :=
  (List.perm_insertionSort _ _).mem_iff

theorem pairwise_lt_cartSortedIds {c : List β} (h : c.Nodup) :
    (Shop.cartSortedIds c).Pairwise (· < ·) := by
  have hs : (Shop.cartSortedIds c).Sorted (· ≤ ·) := List.sorted_insertionSort _ _
  have hn : (Shop.cartSortedIds c).Nodup :=
    (List.perm_insertionSort _ _).nodup_iff.2 h
  exact (hs.and hn).imp (fun hab => lt_of_le_of_ne hab.1 hab.2)

theorem pairsOf_fst_lt :
    ∀ {l : List β}, l.Pairwise (· < ·) → ∀ {pr : β × β}, pr ∈ Shop.pairsOf l → pr.1 < pr.2 := by
  intro l
  induction l with
  | nil => intro _ pr hm; cases hm
  | cons a t ih =>
    intro h pr hm
    rw [Shop.pairsOf, List.mem_append] at hm
    obtain ⟨ha, ht⟩ := List.pairwise_cons.1 h
    rcases hm with hm | hm
    · rw [List.mem_map] at hm
      obtain ⟨b, hb, rfl⟩ := hm
      exact ha b hb
    · exact ih ht hm

theorem count_map_pair (x a b : β) (t : List β) :
    (t.map (fun y => (x, y))).count (a, b) = if x = a then t.count b else 0 := by
  induction t with
  | nil => simp
  | cons y t ih =>
    rw [List.map_cons, List.count_cons, List.count_cons, ih]
    by_cases hx : x = a
    · subst hx
      by_cases hy : y = b <;> simp [hy, Prod.ext_iff]
    · simp [hx, Prod.ext_iff]

theorem count_pairsOf :
    ∀ {l : List β}, l.Pairwise (· < ·) → ∀ (a b : β),
      (Shop.pairsOf l).count (a, b) = if a ∈ l ∧ b ∈ l ∧ a < b then 1 else 0 := by
  intro l
  induction l with
  | nil => intro _ a b; simp [Shop.pairsOf]
  | cons x t ih =>
    intro h a b
    obtain ⟨hx, ht⟩ := List.pairwise_cons.1 h
    have hnodup : t.Nodup := (List.Pairwise.imp (fun hab => ne_of_lt hab)) ht
    have hxt : x ∉ t := fun hmem => lt_irrefl x (hx x hmem)
    rw [Shop.pairsOf, List.count_append, count_map_pair, ih ht a b]
    by_cases hax : x = a
    · subst hax
      by_cases hbt : b ∈ t
      · have hxb : x < b := hx b hbt
        have hcb : t.count b = 1 := List.count_eq_one_of_mem hnodup hbt
        simp [hcb, hxt, hxb, hbt, ne_of_gt hxb, List.mem_cons]
      · have hcb : t.count b = 0 := List.count_eq_zero_of_not_mem hbt
        by_cases hbx : b = x
        · subst hbx
          simp [hcb, hxt, List.mem_cons, lt_irrefl]
        · simp [hcb, hxt, hbt, hbx, List.mem_cons]
    · have hne : a ≠ x := fun h' => hax h'.symm
      by_cases hat : a ∈ t
      · have hxa : x < a := hx a hat
        by_cases hbt : b ∈ t
        · have hbnex : b ≠ x := fun h' => absurd (h' ▸ hx b hbt) (lt_irrefl x)
          simp [hax, hne, hat, hbt, List.mem_cons, hbnex]
        · by_cases hbx : b = x
          · subst hbx
            have hnab : ¬a < b := not_lt_of_gt hxa
            simp [hax, hne, hat, List.mem_cons, hnab, hbt]
          · simp [hax, hne, hat, hbt, hbx, List.mem_cons]
      · simp [hax, hne, hat, List.mem_cons]

theorem sum_ite_eq_length_filter {γ : Type} (P : γ → Prop) [DecidablePred P] (l : List γ) :
    (l.map (fun c => if P c then 1 else 0)).sum = (l.filter (fun c => P c)).length := by
  induction l with
  | nil => rfl
  | cons a l ih => by_cases h : P a <;> simp [List.filter_cons, h, ih, Nat.add_comm]

theorem count_allCartPairs (carts : List (List β)) (pr : β × β) :
    (Shop.allCartPairs carts).count pr =
      (carts.map (fun c => (Shop.pairsOf (Shop.cartSortedIds c)).count pr)).sum := by
  rw [Shop.allCartPairs, List.count_flatten, List.map_map]
  rfl

/-- Under per-cart `Nodup`, the accumulated count of a canonical pair is the
number of carts containing both of its components. -/
theorem count_allCartPairs_nodup {carts : List (List β)}
    (h : ∀ c ∈ carts, c.Nodup) {a b : β} (hab : a < b) :
    (Shop.allCartPairs carts).count (a, b) =
      (carts.filter (fun c => a ∈ c ∧ b ∈ c)).length := by
  rw [count_allCartPairs, ← sum_ite_eq_length_filter (fun c => a ∈ c ∧ b ∈ c) carts]
  congr 1
  refine List.map_congr_left (fun c hc => ?_)
  rw [count_pairsOf (pairwise_lt_cartSortedIds (h c hc))]
  by_cases hm : a ∈ c ∧ b ∈ c
  · rw [if_pos ⟨mem_cartSortedIds.2 hm.1, mem_cartSortedIds.2 hm.2, hab⟩, if_pos hm]
  · rw [if_neg, if_neg hm]
    intro hcon
    exact hm ⟨mem_cartSortedIds.1 hcon.1, mem_cartSortedIds.1 hcon.2.1⟩

theorem mem_allCartPairs_iff {carts : List (List β)} {pr : β × β} :
    pr ∈ Shop.allCartPairs carts ↔
      ∃ c ∈ carts, pr ∈ Shop.pairsOf (Shop.cartSortedIds c) := by
  simp [Shop.allCartPairs, List.mem_flatten]

/-- Membership in the output of `find_frequently_bought_together`: an entry
is a pair that occurred in the scan, carrying its accumulated count, with the
count at least `min_frequency`. -/
theorem mem_find_iff {carts : List (List β)} {m : Nat} {e : (β × β) × Nat} :
    e ∈ Shop.find_frequently_bought_together carts m ↔
      e.1 ∈ Shop.allCartPairs carts ∧
        e.2 = (Shop.allCartPairs carts).count e.1 ∧ m ≤ e.2 := by
  rw [Shop.find_frequently_bought_together, (List.perm_insertionSort _ _).mem_iff,
    List.mem_filter, Shop.countedPairs, List.mem_map]
  constructor
  · rintro ⟨⟨pr, hpr, rfl⟩, hm⟩
    exact ⟨mem_firstSeen.1 hpr, rfl, by simpa using hm⟩
  · rintro ⟨h1, h2, h3⟩
    refine ⟨⟨e.1, mem_firstSeen.2 h1, ?_⟩, by simpa using h3⟩
    calc (e.1, (Shop.allCartPairs carts).count e.1) = (e.1, e.2) := by rw [← h2]
    _ = e := rfl

theorem sorted_find (carts : List (List β)) (m : Nat) :
    (Shop.find_frequently_bought_together carts m).Sorted countGe :=
  List.sorted_insertionSort _ _

theorem pairsOf_eq_nil {l : List β} (h : l.length ≤ 1) : Shop.pairsOf l = [] := by
  match l with
  | [] => rfl
  | [a] => simp [Shop.pairsOf]
  | a :: b :: t => simp at h

theorem find_eq_nil_of_singletons {carts : List (List β)}
    (h : ∀ c ∈ carts, c.length ≤ 1) (m : Nat) :
    Shop.find_frequently_bought_together carts m = [] := by
  have hall : Shop.allCartPairs carts = [] := by
    rw [Shop.allCartPairs, List.flatten_eq_nil_iff]
    intro l hl
    rw [List.mem_map] at hl
    obtain ⟨c, hc, rfl⟩ := hl
    refine pairsOf_eq_nil ?_
    rw [Shop.cartSortedIds, (List.perm_insertionSort _ _).length_eq]
    exact h c hc
  rw [Shop.find_frequently_bought_together, hall]
  rfl

end CoOccurrenceLemmas

/-! ## Fully duplicated carts -/

section ReplicateLemmas

variable {β : Type} [LinearOrder β]

theorem adjacentPairs_replicate (k : Nat) (a : β) :
    adjacentPairs (List.replicate (k + 1) a) = List.replicate k (a, a) := by
  induction k with
  | zero => rfl
  | succ n ih =>
    have h2 : List.replicate (n + 1) a = a :: List.replicate n a := rfl
    rw [show List.replicate (n + 2) a = a :: a :: List.replicate n a from rfl,
      adjacentPairs_cons_cons, ← h2, ih, ← List.replicate_succ]

theorem seqPairs_single_replicate (k : Nat) (a : β) :
    seqPairs [List.replicate (k + 2) a] = List.replicate (k + 1) (a, a) := by
  rw [seqPairs]
  simp [adjacentPairs_replicate (k + 1) a]

theorem firstSeen_replicate (k : Nat) (a : β) :
    firstSeen (List.replicate (k + 1) a) = [a] := by
  have haux : ∀ (n : Nat) (seen : List β), a ∈ seen →
      firstSeenAux seen (List.replicate n a) = [] := by
    intro n
    induction n with
    | zero => intro seen _; rfl
    | succ m ih =>
      intro seen hs
      rw [List.replicate_succ, firstSeenAux, if_pos hs]
      exact ih seen hs
  rw [firstSeen, List.replicate_succ, firstSeenAux, if_neg (List.not_mem_nil a),
    haux k [a] (List.mem_cons_self a [])]

theorem mostCommonAll_replicate (k : Nat) (a : β) :
    mostCommonAll (List.replicate (k + 1) a) = [(a, k + 1)] := by
  rw [mostCommonAll, firstSeen_replicate]
  simp [List.count_replicate, List.insertionSort]

theorem toFinset_replicate (k : Nat) (a : β) :
    (List.replicate (k + 1) a).toFinset = {a} := by
  induction k with
  | zero => simp
  | succ n ih => rw [List.replicate_succ, List.toFinset_cons, ih]; simp

theorem followersOf_replicate (k : Nat) (a : β) :
    Shop.followersOf [List.replicate (k + 2) a] a = List.replicate (k + 1) a := by
  rw [Shop.followersOf, seqPairs_single_replicate, List.filterMap_replicate]
  simp

theorem shop_analyze_replicate (k : Nat) (a : β) :
    Shop.analyze_product_sequences [List.replicate (k + 2) a] = [(a, a, k + 1)] := by
  rw [Shop.analyze_product_sequences, seqPairs_single_replicate]
  have hmap : (List.replicate (k + 1) (a, a)).map Prod.fst = List.replicate (k + 1) a := by
    simp
  rw [hmap, firstSeen_replicate]
  simp [followersOf_replicate, mostCommonAll_replicate]

theorem get_rec_replicate (k lim : Nat) (a : β) :
    Shop.get_product_recommendations a [List.replicate (k + 2) a] (lim + 1) = [(a, k + 1)] := by
  simp only [Shop.get_product_recommendations]
  rw [followersOf_replicate, mostCommonAll_replicate,
    if_neg (by simp : ¬(List.replicate (k + 1) a = []))]
  simp

theorem sim_replicate (k : Nat) (a : β) :
    Shop.get_cart_similarity_score (List.replicate (k + 1) a) (List.replicate (k + 1) a) = 1 := by
  simp only [Shop.get_cart_similarity_score]
  rw [toFinset_replicate]
  simp

end ReplicateLemmas

/-! ## Claim theorems -/

/-- **C1 (counterexample)**: the claim says duplicates within a cart collapse
to one membership and no self-pair `(X,X)` ever appears in the output of
`find_frequently_bought_together`.  The code builds pairs from the sorted
item list *with multiplicity*: for two carts each holding the same product
twice, the self-pair `(0,0)` appears in the output with count 2 (set
semantics would return an empty output). -/
theorem claim_C1_counterexample :
    Shop.find_frequently_bought_together [[0, 0], [0, 0]] 2 = [((0, 0), 2)] ∧
      ¬(∀ e ∈ Shop.find_frequently_bought_together [[0, 0], [0, 0]] 2,
          e.1.1 ≠ e.1.2) := by
  refine ⟨by decide, fun h => ?_⟩
  exact h ((0, 0), 2) (by decide) rfl

/-- **C1 (amended)**: for cart collections in which no cart lists the same
product twice, the analysis is set-based: every entry of
`find_frequently_bought_together` is a strictly ordered pair (so never a
self-pair) whose count is the number of carts containing both products (so a
cart with fewer than two distinct products contributes to no pair), and the
count is at least `min_frequency`.  Carts with duplicated items instead
contribute pairs with multiplicity, including self-pairs. -/
theorem claim_C1_set_based {carts : List (List α)} (h : ∀ c ∈ carts, c.Nodup)
    (m : Nat) {pr : α × α} {n : Nat}
    (hmem : (pr, n) ∈ Shop.find_frequently_bought_together carts m) :
    pr.1 < pr.2 ∧ n = (carts.filter (fun c => pr.1 ∈ c ∧ pr.2 ∈ c)).length ∧ m ≤ n := by
  obtain ⟨h1, h2, h3⟩ := mem_find_iff.1 hmem
  dsimp only at h1 h2 h3
  obtain ⟨c, hc, hpc⟩ := mem_allCartPairs_iff.1 h1
  have hlt : pr.1 < pr.2 := pairsOf_fst_lt (pairwise_lt_cartSortedIds (h c hc)) hpc
  refine ⟨hlt, ?_, h3⟩
  rw [h2]
  exact count_allCartPairs_nodup h hlt

theorem claim_C1_set_based_witness :
    (0 : Nat) < 1 ∧
      2 = (([[0, 1], [1, 0]] : List (List Nat)).filter (fun c => 0 ∈ c ∧ 1 ∈ c)).length ∧
      2 ≤ 2 :=
  @claim_C1_set_based Nat _ [[0, 1], [1, 0]] (by decide) 2 (0, 1) 2 (by decide)

/-- **C2**: for carts `[A,B], [A,B], [A,C], [C,B]` (here `A,B,C := 0,1,2`),
the predecessor analysis (`analyze_product_sequences` of
`3_Python_Shopping_Cart/shopping_cart.py`) maps `B` to most common
predecessor `A` with 2 occurrences and `C` to `A` with 1 occurrence, and has
no entry for `A`. -/
theorem claim_C2_predecessor_example :
    PyCart.analyze_product_sequences [[0, 1], [0, 1], [0, 2], [2, 1]] =
        [(1, ⟨1, some 0, 2⟩), (2, ⟨2, some 0, 1⟩)] ∧
      ∀ s, ((0 : Nat), s) ∉ PyCart.analyze_product_sequences [[0, 1], [0, 1], [0, 2], [2, 1]] := by
  have hres : PyCart.analyze_product_sequences [[0, 1], [0, 1], [0, 2], [2, 1]] =
      [(1, ⟨1, some 0, 2⟩), (2, ⟨2, some 0, 1⟩)] := by decide
  refine ⟨hres, fun s hs => ?_⟩
  rw [hres] at hs
  simp [List.mem_cons, Prod.ext_iff] at hs

/-- **C3**: the predecessor analysis has an entry exactly for the products
that appear at a non-first position of some cart; if every cart has fewer
than two items the result is empty. -/
theorem claim_C3_key_presence (carts : List (List α)) (p : α) :
    ((∃ s, (p, s) ∈ PyCart.analyze_product_sequences carts) ↔
        ∃ ct : List α, ct ∈ carts ∧ ∃ i : Nat, ct[i + 1]? = some p) ∧
      ((∀ c ∈ carts, c.length ≤ 1) → PyCart.analyze_product_sequences carts = []) := by
  constructor
  · rw [pycart_key_iff, mem_firstSeen]
    exact mem_map_snd_seqPairs
  · exact pycart_analyze_eq_nil

theorem claim_C3_key_presence_witness :
    PyCart.analyze_product_sequences ([[0], [1]] : List (List Nat)) = [] :=
  (claim_C3_key_presence [[0], [1]] 0).2 (by decide)

/-- **C4**: co-occurrence counting is insensitive to within-cart order:
permuting the items of each cart leaves `find_frequently_bought_together`
unchanged, and the carts `[A,B]`, `[B,A]` (here `A,B := 0,1`) produce exactly
the single canonical pair `(A,B)` with count 2. -/
theorem claim_C4_order_independence :
    (∀ (β : Type) [inst : LinearOrder β] (carts carts' : List (List β)) (m : Nat),
        List.Forall₂ List.Perm carts carts' →
          Shop.find_frequently_bought_together carts m =
            Shop.find_frequently_bought_together carts' m) ∧
      Shop.find_frequently_bought_together [[0, 1], [1, 0]] 2 = [((0, 1), 2)] := by
  constructor
  · intro β _ carts carts' m hperm
    have hsort : ∀ (c c' : List β), List.Perm c c' →
        Shop.cartSortedIds c = Shop.cartSortedIds c' := by
      intro c c' hp
      refine List.eq_of_perm_of_sorted ?_ (List.sorted_insertionSort _ _)
        (List.sorted_insertionSort _ _)
      exact (List.perm_insertionSort _ c).trans (hp.trans (List.perm_insertionSort _ c').symm)
    have hall : Shop.allCartPairs carts = Shop.allCartPairs carts' := by
      rw [Shop.allCartPairs, Shop.allCartPairs]
      congr 1
      induction hperm with
      | nil => rfl
      | cons h _ ih => rw [List.map_cons, List.map_cons, hsort _ _ h, ih]
    rw [Shop.find_frequently_bought_together, Shop.find_frequently_bought_together, hall]
  · decide

theorem claim_C4_order_independence_witness :
    Shop.find_frequently_bought_together ([[0, 1]] : List (List Nat)) 2 =
      Shop.find_frequently_bought_together [[1, 0]] 2 :=
  claim_C4_order_independence.1 Nat [[0, 1]] [[1, 0]] 2
    (List.Forall₂.cons (by decide) List.Forall₂.nil)

/-- **C5**: cart similarity is the Jaccard coefficient of the distinct-product
sets: always in `[0,1]`, symmetric, `0` on two empty carts, and `1` on any
non-empty cart compared with itself. -/
theorem claim_C5_similarity (c1 c2 : List α) :
    0 ≤ Shop.get_cart_similarity_score c1 c2 ∧
      Shop.get_cart_similarity_score c1 c2 ≤ 1 ∧
      Shop.get_cart_similarity_score c1 c2 = Shop.get_cart_similarity_score c2 c1 ∧
      Shop.get_cart_similarity_score ([] : List α) [] = 0 ∧
      (c1 ≠ [] → Shop.get_cart_similarity_score c1 c1 = 1) := by
  have hbounds : ∀ (x y : List α), 0 ≤ Shop.get_cart_similarity_score x y ∧
      Shop.get_cart_similarity_score x y ≤ 1 := by
    intro x y
    simp only [Shop.get_cart_similarity_score]
    split_ifs with h1 h2
    · exact ⟨le_refl 0, by norm_num⟩
    · have hsub : (x.toFinset ∩ y.toFinset).card ≤ (x.toFinset ∪ y.toFinset).card :=
        Finset.card_le_card (Finset.inter_subset_left.trans Finset.subset_union_left)
      have hpos : (0 : ℚ) < ((x.toFinset ∪ y.toFinset).card : ℚ) := by
        exact_mod_cast h2
      constructor
      · exact div_nonneg (Nat.cast_nonneg _) (Nat.cast_nonneg _)
      · rw [div_le_one hpos]
        exact_mod_cast hsub
    · exact ⟨le_refl 0, by norm_num⟩
  have hsymm : ∀ (x y : List α),
      Shop.get_cart_similarity_score x y = Shop.get_cart_similarity_score y x := by
    intro x y
    simp only [Shop.get_cart_similarity_score]
    rw [Finset.inter_comm, Finset.union_comm]
    by_cases h1 : x.toFinset = ∅ ∧ y.toFinset = ∅
    · rw [if_pos h1, if_pos ⟨h1.2, h1.1⟩]
    · rw [if_neg h1,
        if_neg (fun hc : y.toFinset = ∅ ∧ x.toFinset = ∅ => h1 ⟨hc.2, hc.1⟩)]
  refine ⟨(hbounds c1 c2).1, (hbounds c1 c2).2, hsymm c1 c2, by
    simp [Shop.get_cart_similarity_score], ?_⟩
  intro hne
  have hnempty : c1.toFinset ≠ ∅ := fun hcon => hne ((List.toFinset_eq_empty_iff c1).1 hcon)
  have hpos : 0 < c1.toFinset.card :=
    Finset.card_pos.2 (Finset.nonempty_iff_ne_empty.2 hnempty)
  simp only [Shop.get_cart_similarity_score]
  rw [if_neg (fun hcon : c1.toFinset = ∅ ∧ c1.toFinset = ∅ => hnempty hcon.1),
    Finset.inter_self, Finset.union_self, if_pos hpos]
  exact div_self (by exact_mod_cast hpos.ne')

theorem claim_C5_similarity_witness :
    Shop.get_cart_similarity_score [0] [0] = 1 :=
  (claim_C5_similarity [0] ([0] : List Nat)).2.2.2.2 (by decide)

/-- **C6**: the follower-recommendation query returns the distinct products
that immediately followed the given product with their frequencies, sorted
descending by frequency and truncated to `limit`; it returns an empty list
(never an absent value) when the product never immediately precedes
anything.  Concretely (with `A,B := 0,1`): for carts `[A,B], [A,B]`,
`get_product_recommendations A _ 5 = [(B, 2)]` and
`get_product_recommendations B _ 5 = []`. -/
theorem claim_C6_recommendations :
    (∀ (β : Type) [inst : LinearOrder β] (p : β) (carts : List (List β)) (limit : Nat),
        (Shop.followersOf carts p = [] →
          Shop.get_product_recommendations p carts limit = []) ∧
        (∀ e ∈ Shop.get_product_recommendations p carts limit,
          e.1 ∈ Shop.followersOf carts p ∧ e.2 = (Shop.followersOf carts p).count e.1) ∧
        ((Shop.get_product_recommendations p carts limit).map Prod.fst).Nodup ∧
        (Shop.get_product_recommendations p carts limit).Sorted countGe ∧
        (Shop.get_product_recommendations p carts limit).length ≤ limit) ∧
      Shop.get_product_recommendations 0 [[0, 1], [0, 1]] 5 = [(1, 2)] ∧
      Shop.get_product_recommendations 1 [[0, 1], [0, 1]] 5 = [] := by
  refine ⟨?_, by decide, by decide⟩
  intro β _ p carts limit
  by_cases hfl : Shop.followersOf carts p = []
  · have hr : Shop.get_product_recommendations p carts limit = [] := by
      simp only [Shop.get_product_recommendations]
      rw [if_pos hfl]
    rw [hr]
    simp
  · have hr : Shop.get_product_recommendations p carts limit =
        (mostCommonAll (Shop.followersOf carts p)).take limit := by
      simp only [Shop.get_product_recommendations]
      rw [if_neg hfl]
    refine ⟨fun hcon => absurd hcon hfl, ?_, ?_, ?_, ?_⟩
    · intro e he
      rw [hr] at he
      exact mem_mostCommonAll.1 (List.mem_of_mem_take he)
    · rw [hr, List.map_take]
      exact (List.take_sublist _ _).nodup (nodup_map_fst_mostCommonAll _)
    · rw [hr]
      exact List.Pairwise.sublist (List.take_sublist _ _) (sorted_mostCommonAll _)
    · rw [hr]
      exact List.length_take_le _ _

theorem claim_C6_recommendations_witness :
    Shop.get_product_recommendations 0 ([[0]] : List (List Nat)) 3 = [] :=
  (claim_C6_recommendations.1 Nat 0 [[0]] 3).1 (by decide)

/-- **C7 (counterexample)**: the claim says equal counts are ordered by the
canonical (lexicographic) pair ordering.  For carts `[1,2], [0,1]` with
`min_frequency = 1`, both pairs have count 1 but the output keeps the
first-encounter order `[(1,2), (0,1)]`, which is not sorted by the claimed
secondary key. -/
theorem claim_C7_counterexample :
    Shop.find_frequently_bought_together [[1, 2], [0, 1]] 1 =
        [((1, 2), 1), ((0, 1), 1)] ∧
      ¬(Shop.find_frequently_bought_together [[1, 2], [0, 1]] 1).Sorted specPairOrder := by
  exact ⟨by decide, by decide⟩

/-- **C7 (amended)**: the output of `find_frequently_bought_together` is
sorted descending by count, and entries with equal counts keep the
first-encounter order of their pairs in the accumulator (Python's sort is
stable), rather than the canonical pair ordering; the output is a
deterministic function of the input. -/
theorem claim_C7_sorted_stable (carts : List (List α)) (m cnt : Nat) :
    (Shop.find_frequently_bought_together carts m).Sorted countGe ∧
      (Shop.find_frequently_bought_together carts m).filter (fun x => x.2 = cnt) =
        ((Shop.countedPairs (Shop.allCartPairs carts)).filter
          (fun x => m ≤ x.2)).filter (fun x => x.2 = cnt) :=
  ⟨sorted_find carts m, filter_insertionSort_count cnt _⟩

/-- **C8**: no output pair of `find_frequently_bought_together` has a count
below `min_frequency`, and raising `min_frequency` only shrinks the result:
every entry returned for `m2 ≥ m1` is also returned for `m1`. -/
theorem claim_C8_min_frequency (carts : List (List α)) (m1 m2 : Nat) :
    (∀ e ∈ Shop.find_frequently_bought_together carts m1, m1 ≤ e.2) ∧
      (m1 ≤ m2 → ∀ e ∈ Shop.find_frequently_bought_together carts m2,
        e ∈ Shop.find_frequently_bought_together carts m1) := by
  constructor
  · intro e he
    exact (mem_find_iff.1 he).2.2
  · intro h12 e he
    obtain ⟨h1, h2, h3⟩ := mem_find_iff.1 he
    exact mem_find_iff.2 ⟨h1, h2, le_trans h12 h3⟩

theorem claim_C8_min_frequency_witness :
    ((0, 1), 2) ∈ Shop.find_frequently_bought_together ([[0, 1], [1, 0]] : List (List Nat)) 1 :=
  (claim_C8_min_frequency [[0, 1], [1, 0]] 1 2).2 (by decide) ((0, 1), 2) (by decide)

/-- **C9**: all four analyses are total over well-formed input: on empty
collections, empty carts, singleton carts, and carts made entirely of a
duplicated product, each operation returns a definite result (no error): the
sequence analyses and the co-occurrence query return empty results on
degenerate collections, and on a fully duplicated cart they return the
explicit values computed here; similarity of two empty carts is `0` and of a
duplicated cart with itself is `1`. -/
theorem claim_C9_totality (p a : α) (m lim k : Nat) (carts : List (List α)) :
    Shop.analyze_product_sequences ([] : List (List α)) = [] ∧
      PyCart.analyze_product_sequences ([] : List (List α)) = [] ∧
      Shop.get_product_recommendations p [] lim = [] ∧
      Shop.find_frequently_bought_together ([] : List (List α)) m = [] ∧
      Shop.get_cart_similarity_score ([] : List α) [] = 0 ∧
      ((∀ c ∈ carts, c.length ≤ 1) →
        Shop.analyze_product_sequences carts = [] ∧
          PyCart.analyze_product_sequences carts = [] ∧
          Shop.get_product_recommendations p carts lim = [] ∧
          Shop.find_frequently_bought_together carts m = []) ∧
      Shop.analyze_product_sequences [List.replicate (k + 2) a] = [(a, a, k + 1)] ∧
      Shop.get_product_recommendations a [List.replicate (k + 2) a] (lim + 1) =
        [(a, k + 1)] ∧
      Shop.get_cart_similarity_score (List.replicate (k + 1) a)
        (List.replicate (k + 1) a) = 1 := by
  refine ⟨rfl, rfl, ?_, rfl, by simp [Shop.get_cart_similarity_score], ?_,
    shop_analyze_replicate k a, get_rec_replicate k lim a, sim_replicate k a⟩
  · simp [Shop.get_product_recommendations, Shop.followersOf, seqPairs]
  · intro h
    exact ⟨shop_analyze_eq_nil h, pycart_analyze_eq_nil h,
      get_product_recommendations_eq_nil_of_singletons h p lim,
      find_eq_nil_of_singletons h m⟩

theorem claim_C9_totality_witness :
    Shop.analyze_product_sequences [List.replicate 2 1] = [((1 : Nat), 1, 1)] ∧
      Shop.find_frequently_bought_together ([[5], []] : List (List Nat)) 2 = [] := by
  have h := claim_C9_totality (0 : Nat) 1 2 3 0 [[5], []]
  exact ⟨h.2.2.2.2.2.2.1, (h.2.2.2.2.2.1 (by decide)).2.2.2⟩

/-- **C10**: the batch sequence analysis and the per-product recommendation
query agree: whenever `p` has at least one observed immediate follower, the
entry of `analyze_product_sequences` at `p` is exactly the single entry of
`get_product_recommendations p carts 1`; and for any `limit ≥ 1`, `p` has an
entry in the analysis iff the recommendation list is non-empty. -/
theorem claim_C10_agreement (carts : List (List α)) (p : α) (limit : Nat)
    (h : 1 ≤ limit) :
    (Shop.followersOf carts p ≠ [] →
        ∃ e : α × Nat, Shop.get_product_recommendations p carts 1 = [e] ∧
          (p, e) ∈ Shop.analyze_product_sequences carts) ∧
      ((∃ s, (p, s) ∈ Shop.analyze_product_sequences carts) ↔
        Shop.get_product_recommendations p carts limit ≠ []) := by
  have hkey : p ∈ firstSeen ((seqPairs carts).map Prod.fst) ↔
      Shop.followersOf carts p ≠ [] := by
    rw [mem_firstSeen, Ne, followersOf_eq_nil_iff, not_not]
  have hpart1 : Shop.followersOf carts p ≠ [] →
      ∃ e : α × Nat, Shop.get_product_recommendations p carts 1 = [e] ∧
        (p, e) ∈ Shop.analyze_product_sequences carts := by
    intro hfl
    obtain ⟨e, t, hm⟩ : ∃ e t, mostCommonAll (Shop.followersOf carts p) = e :: t := by
      cases hmc : mostCommonAll (Shop.followersOf carts p) with
      | nil => exact absurd hmc (mostCommonAll_ne_nil hfl)
      | cons e t => exact ⟨e, t, rfl⟩
    refine ⟨e, ?_, ?_⟩
    · simp only [Shop.get_product_recommendations]
      rw [if_neg hfl, hm]
      rfl
    · refine mem_shop_analyze.2 ⟨hkey.2 hfl, ?_⟩
      rw [hm]
      rfl
  refine ⟨hpart1, ?_, ?_⟩
  · rintro ⟨s, hs⟩
    have hfl := hkey.1 (mem_shop_analyze.1 hs).1
    obtain ⟨e, t, hm⟩ : ∃ e t, mostCommonAll (Shop.followersOf carts p) = e :: t := by
      cases hmc : mostCommonAll (Shop.followersOf carts p) with
      | nil => exact absurd hmc (mostCommonAll_ne_nil hfl)
      | cons e t => exact ⟨e, t, rfl⟩
    simp only [Shop.get_product_recommendations]
    rw [if_neg hfl, hm]
    cases limit with
    | zero => omega
    | succ n => simp
  · intro hne
    by_cases hfl : Shop.followersOf carts p = []
    · exfalso
      refine hne ?_
      simp only [Shop.get_product_recommendations]
      rw [if_pos hfl]
    · obtain ⟨e, _, hmem⟩ := hpart1 hfl
      exact ⟨e, hmem⟩

theorem claim_C10_agreement_witness :
    Shop.get_product_recommendations 0 ([[0, 1], [0, 1]] : List (List Nat)) 5 ≠ [] :=
  (claim_C10_agreement [[0, 1], [0, 1]] 0 5 (by decide)).2.1 ⟨(1, 2), by decide⟩
